import Mathlib

/-!
Verification development for the firestrike repository.

Shallow embedding of:
* `firestrike_temp/file_encryptor.py` — magnet-link codec
  (`generate_magnet_link` / `parse_magnet_link`) and the chunked
  AES-256-CBC + PKCS#7 file pipeline (`encrypt_file` / `decrypt_file`);
* `firestrike_temp/hidden_service.py` — the `FireStrikeNode` protocol
  handlers (`handle_ping`, `handle_store`, `handle_find`,
  `handle_get_peers`, `process_message`, `cleanup_peers`);
* `firestrike_temp/dht_node.py` — the prototype `DHTNode.store_file`.

Bytes are `List Nat` with every element `< 256`; Python `str` values are
`List Char` (in the codec) or `String` (in protocol messages); the AES
block permutation and the SHA3-256 digest are external library calls and
enter as explicit function parameters of the definitions that call them.
-/

/- ===================== base64 (Python `base64` module) ===================== -/

/-- Standard base64 alphabet, as used by Python `base64.b64encode`. -/
def b64Alphabet : List Char :=
  "ABCDEFGHIJKLMNOPQRSTUVWXYZabcdefghijklmnopqrstuvwxyz0123456789+/".toList

/-- Character for a 6-bit value. -/
def b64Char (i : Nat) : Char := b64Alphabet.getD i 'A'

/-- Position of a character in the base64 alphabet, `none` if absent. -/
def b64Index (c : Char) : Option Nat := b64Alphabet.findIdx? (fun x => x == c)

/-- Whether a character belongs to the base64 alphabet. -/
def isB64Char (c : Char) : Bool := (b64Index c).isSome

/-- Python `base64.b64encode` on a byte list: 3-byte groups become 4
alphabet characters, a 1- or 2-byte tail is padded with `=`. -/
def b64encode : List Nat → List Char
  | [] => []
  | [a] => [b64Char (a / 4), b64Char (a % 4 * 16), '=', '=']
  | [a, b] => [b64Char (a / 4), b64Char (a % 4 * 16 + b / 16), b64Char (b % 16 * 4), '=']
  | a :: b :: c :: rest =>
      b64Char (a / 4) :: b64Char (a % 4 * 16 + b / 16) ::
        b64Char (b % 16 * 4 + c / 64) :: b64Char (c % 64) :: b64encode rest

/-- Quad-at-a-time base64 decoding: `=` padding is accepted in the final
quad only (the canonical position); surplus bits before the padding are
discarded, as CPython's lax `binascii.a2b_base64` does. -/
def b64decodeQuads : List Char → Option (List Nat)
  | [] => some []
  | c1 :: c2 :: c3 :: c4 :: rest =>
    match b64Index c1, b64Index c2 with
    | some i1, some i2 =>
      if c3 = '=' then
        if c4 = '=' then
          if rest = [] then some [i1 * 4 + i2 / 16] else none
        else none
      else
        match b64Index c3 with
        | some i3 =>
          if c4 = '=' then
            if rest = [] then some [i1 * 4 + i2 / 16, i2 % 16 * 16 + i3 / 4] else none
          else
            match b64Index c4 with
            | some i4 =>
              (b64decodeQuads rest).map
                (fun bs => (i1 * 4 + i2 / 16) :: (i2 % 16 * 16 + i3 / 4) :: (i3 % 4 * 64 + i4) :: bs)
            | none => none
        | none => none
    | _, _ => none
  | _ => none

/-- Python `base64.b64decode` with `validate=False` (the default, and what
`file_encryptor.py` / `hidden_service.py` call): characters outside the
alphabet and `=` are discarded before decoding, and decoding fails
(`binascii.Error`, here `none`) when the remaining length is not a
multiple of four or the padding is malformed. -/
def b64decode (s : List Char) : Option (List Nat) :=
  let t := s.filter (fun c => isB64Char c || c == '=')
  if t.length % 4 = 0 then b64decodeQuads t else none

/- ===================== hex encoding (`bytes.hex()`) ===================== -/

/-- Lowercase hex digits. -/
def hexDigits : List Char := "0123456789abcdef".toList

/-- Whether a character is a lowercase hex digit. -/
def isLowerHex (c : Char) : Bool := hexDigits.contains c

/-- Two hex characters of one byte. -/
def hexByte (b : Nat) : List Char := [hexDigits.getD (b / 16) '0', hexDigits.getD (b % 16) '0']

/-- Python `bytes.hex()`. -/
def hexEncode (bs : List Nat) : String := String.mk (bs.flatMap hexByte)

/- ===================== Python `str.split` / `str.startswith` ===================== -/

/-- Boolean list-prefix test (`str.startswith`). -/
def isPrefixL : List Char → List Char → Bool
  | [], _ => true
  | _ :: _, [] => false
  | a :: as, b :: bs => if a = b then isPrefixL as bs else false

/-- Fuelled worker for `splitOnStr`; the fuel (an upper bound on the input
length, consumed one character per step) only makes the left-to-right,
non-overlapping scan of Python `str.split` structurally recursive. -/
def splitOnAux (sep : List Char) : Nat → List Char → List Char → List (List Char)
  | 0, l, acc => [acc.reverse ++ l]
  | _ + 1, [], acc => [acc.reverse]
  | fuel + 1, c :: rest, acc =>
    if isPrefixL sep (c :: rest) then
      acc.reverse :: splitOnAux sep fuel (List.drop (sep.length - 1) rest) []
    else
      splitOnAux sep fuel rest (c :: acc)

/-- Python `str.split(sep)` for a non-empty separator (the only way the
source calls it; Python raises on an empty separator, here the guard just
returns the whole string). -/
def splitOnStr (sep l : List Char) : List (List Char) :=
  if sep = [] then [l] else splitOnAux sep l.length l []

/- ===================== magnet links (`file_encryptor.py`) ===================== -/

/-- Literal scheme prefix of the magnet-link format. -/
def schemeChars : List Char := "firestrike://".toList

/-- Separator the source splits on first. -/
def sepScheme : List Char := "://".toList

/-- `FileEncryptor.generate_magnet_link`: the f-string
`firestrike://{file_hash}#{key_b64}` with `key_b64 = b64encode(key)`. -/
def generate_magnet_link (file_hash : List Char) (key : List Nat) : List Char :=
  schemeChars ++ file_hash ++ '#' :: b64encode key

/-- `FileEncryptor.parse_magnet_link`: scheme check, split on `://` and
take index 1, split on `#` into exactly two parts, base64-decode the key,
then check the hash length (64) and the key length (32). Any failure
(including an exception from `b64decode` or the index access) is caught
and re-raised as `ValueError`, here `none`. The hash segment is never
checked for hex characters. -/
def parse_magnet_link (s : List Char) : Option (List Char × List Nat) :=
  if isPrefixL schemeChars s then
    match (splitOnStr sepScheme s).get? 1 with
    | some seg =>
      match splitOnStr ['#'] seg with
      | [file_hash, key_b64] =>
        match b64decode key_b64 with
        | some key =>
          if file_hash.length = 64 then
            if key.length = 32 then some (file_hash, key) else none
          else none
        | none => none
      | _ => none
    | none => none
  else none

/- ============== AES-CBC + PKCS#7 pipeline (`file_encryptor.py`) ==============

The `cryptography` library primitives that `encrypt_file` / `decrypt_file`
drive are modelled at their documented interface:

* the AES-256 block permutation for a fixed key is an explicit parameter
  `E` (and `D` for its inverse direction) acting on 16-byte blocks;
* `CBC` chaining, the 8 KiB read loop, and the streaming PKCS#7
  padder/unpadder contexts are modelled operationally, buffer and all:
  `PKCS7.padder().update` emits every complete 16-byte block and buffers
  the remainder, `finalize` pads the buffer; `PKCS7.unpadder().update`
  emits all but the last complete block (the would-be padding block) and
  buffers the rest, and never raises `ValueError`
  (`_byte_unpadding_update` only appends to the buffer and slices it), so
  the `except ValueError` branch of `decrypt_file` is unreachable and
  `unpadder.finalize()` is never called on the success path. -/

/-- Fuelled chunking of a byte list (`f.read(n)` loop); the fuel is an
upper bound on the number of chunks, sufficient at `l.length`. -/
def chunksOfAux (n : Nat) : Nat → List Nat → List (List Nat)
  | _, [] => []
  | 0, l => [l]
  | fuel + 1, l => l.take n :: chunksOfAux n fuel (l.drop n)

/-- The 8192-byte chunks produced by the `while chunk := f.read(self.CHUNK_SIZE)` loops. -/
def chunks8192 (l : List Nat) : List (List Nat) := chunksOfAux 8192 l.length l

/-- Split a block-aligned byte list into 16-byte blocks. -/
def toBlocks (l : List Nat) : List (List Nat) := chunksOfAux 16 l.length l

/-- Bytewise XOR of two equal-length blocks. -/
def xorBlock (a b : List Nat) : List Nat := List.zipWith Nat.xor a b

/-- CBC encryption of a list of plaintext blocks: each block is XORed with
the previous ciphertext block (initially the IV) and passed through the
block permutation; returns the new chaining value and the cipher blocks. -/
def cbcEncBlocks (E : List Nat → List Nat) : List Nat → List (List Nat) → List Nat × List (List Nat)
  | prev, [] => (prev, [])
  | prev, b :: bs =>
    let c := E (xorBlock b prev)
    let r := cbcEncBlocks E c bs
    (r.1, c :: r.2)

/-- CBC decryption of a list of cipher blocks. -/
def cbcDecBlocks (D : List Nat → List Nat) : List Nat → List (List Nat) → List Nat × List (List Nat)
  | prev, [] => (prev, [])
  | prev, c :: cs =>
    let p := xorBlock (D c) prev
    let r := cbcDecBlocks D c cs
    (r.1, p :: r.2)

/-- State of a `CipherContext`: the CBC chaining value and the partial
block the backend buffers until a full block arrives. -/
structure CipherSt where
  prev : List Nat
  buf : List Nat
deriving DecidableEq

/-- `encryptor.update(data)`: process every complete block, buffer the rest. -/
def cipherEncUpdate (E : List Nat → List Nat) (st : CipherSt) (data : List Nat) :
    CipherSt × List Nat :=
  let b := st.buf ++ data
  let k := b.length / 16 * 16
  let r := cbcEncBlocks E st.prev (toBlocks (b.take k))
  (⟨r.1, b.drop k⟩, r.2.flatten)

/-- `decryptor.update(data)`: process every complete block, buffer the rest. -/
def cipherDecUpdate (D : List Nat → List Nat) (st : CipherSt) (data : List Nat) :
    CipherSt × List Nat :=
  let b := st.buf ++ data
  let k := b.length / 16 * 16
  let r := cbcDecBlocks D st.prev (toBlocks (b.take k))
  (⟨r.1, b.drop k⟩, r.2.flatten)

/-- `padder.update`: returns `(new buffer, emitted bytes)`; every complete
16-byte block is emitted. -/
def padderUpdate (buf data : List Nat) : List Nat × List Nat :=
  let b := buf ++ data
  let k := b.length / 16 * 16
  (b.drop k, b.take k)

/-- `padder.finalize`: PKCS#7-pad the buffered partial block. -/
def padderFinalize (buf : List Nat) : List Nat :=
  buf ++ List.replicate (16 - buf.length % 16) (16 - buf.length % 16)

/-- `unpadder.update`: returns `(new buffer, emitted bytes)`; the last
complete block is withheld in the buffer (it may be the padding block),
i.e. `finished_blocks = max(len(buf) // 16 - 1, 0)`. -/
def unpadderUpdate (buf data : List Nat) : List Nat × List Nat :=
  let b := buf ++ data
  let k := (b.length / 16 - 1) * 16
  (b.drop k, b.take k)

/-- Loop state of `encrypt_file`: padder buffer, encryptor state, bytes
written to the output file so far. -/
structure EncLoopSt where
  padBuf : List Nat
  enc : CipherSt
  out : List Nat
deriving DecidableEq

/-- One iteration of the `encrypt_file` read loop. -/
def encStep (E : List Nat → List Nat) (st : EncLoopSt) (chunk : List Nat) : EncLoopSt :=
  let p := padderUpdate st.padBuf chunk
  let e := cipherEncUpdate E st.enc p.2
  ⟨p.1, e.1, st.out ++ e.2⟩

/-- `FileEncryptor.encrypt_file` with block permutation `E` and the random
IV passed in explicitly (`os.urandom(16)` in the source): writes the IV,
loops over 8 KiB chunks through the padder and the encryptor, then
finalizes the padder and the encryptor. `encryptor.finalize()` raises when
a partial block is buffered (never on this path), modelled as `none`. -/
def encrypt_file (E : List Nat → List Nat) (iv : List Nat) (p : List Nat) : Option (List Nat) :=
  let st0 : EncLoopSt := ⟨[], ⟨iv, []⟩, iv⟩
  let st := (chunks8192 p).foldl (encStep E) st0
  let finalPadded := padderFinalize st.padBuf
  let e := cipherEncUpdate E st.enc finalPadded
  if e.1.buf = [] then some (st.out ++ e.2) else none

/-- Loop state of `decrypt_file`: decryptor state, unpadder buffer, bytes
written to the output file so far. -/
structure DecLoopSt where
  dec : CipherSt
  unpadBuf : List Nat
  out : List Nat
deriving DecidableEq

/-- One iteration of the `decrypt_file` read loop. The `except ValueError`
handler around `unpadder.update` is dead code (see the section comment),
so each iteration just writes what `update` emits; `unpadder.finalize()`
is never reached. -/
def decStep (D : List Nat → List Nat) (st : DecLoopSt) (chunk : List Nat) : DecLoopSt :=
  let d := cipherDecUpdate D st.dec chunk
  let u := unpadderUpdate st.unpadBuf d.2
  ⟨d.1, u.1, st.out ++ u.2⟩

/-- `FileEncryptor.decrypt_file` with inverse block permutation `D`: reads
the 16-byte IV (error if the file is shorter), then loops over 8 KiB
chunks through the decryptor and the unpadder; whatever remains buffered
in the unpadder when the file ends is silently dropped. -/
def decrypt_file (D : List Nat → List Nat) (ct : List Nat) : Option (List Nat) :=
  if ct.length < 16 then none
  else
    let iv := ct.take 16
    let body := ct.drop 16
    let st := (chunks8192 body).foldl (decStep D) ⟨⟨iv, []⟩, [], []⟩
    some st.out

/-- A concrete instance of the abstract block-permutation parameter (the
identity permutation, a legitimate bijection on blocks) used to evaluate
the pipeline at concrete inputs. -/
def identCipher : List Nat → List Nat := fun b => b

/-- A concrete all-zero IV. -/
def ivZero : List Nat := List.replicate 16 0

/- ============ FireStrikeNode protocol (`hidden_service.py`) ============ -/

/-- `PeerInfo` dataclass. -/
structure PeerInfo where
  onion_address : String
  public_key : List Nat
  last_seen : Int
  shared_files : List String
deriving DecidableEq

/-- The mutable node state the handlers touch: `self.max_peers`,
`self.onion_address`, the insertion-ordered dict `self.peers`, and the
dict `self.data_store`. Timestamps are integers standing for
`time.time()` values. -/
structure NodeState where
  max_peers : Nat
  onion_address : Option String
  peers : List (String × PeerInfo)
  data_store : List (String × List Nat)
deriving DecidableEq

/-- An incoming JSON message, one `Option` field per key the handlers
read with `message.get(...)`; `none` is an absent key. -/
structure Message where
  type : Option String
  sender : Option String
  public_key : Option (List Nat)
  hash : Option String
  data : Option String
deriving DecidableEq

/-- Response dictionaries the handlers build, one constructor per literal
dict shape in the source (the constructor name is the `'type'` field, the
first `String` argument the `'status'` field). -/
inductive Resp where
  | pong (status : String) (address : Option String)
  | store_response (status : String) (hash : String)
  | find_found (status hash data : String)
  | find_not_found (status hash : String) (peers : List String)
  | peers_response (status : String) (peers : List (String × String × List String))
  | error (status : String) (message : Option String)
deriving DecidableEq

/-- Python dict lookup (`d.get(k)` / `d[k]` guarded by `k in d`). -/
def pyLookup : List (String × α) → String → Option α
  | [], _ => none
  | (a, b) :: t, k => if a = k then some b else pyLookup t k

/-- Python dict assignment `d[k] = v`: replace in place if the key is
present, append otherwise. -/
def dictInsert : List (String × α) → String → α → List (String × α)
  | [], k, v => [(k, v)]
  | (a, b) :: t, k, v => if a = k then (k, v) :: t else (a, b) :: dictInsert t k v

/-- Python `set.add` on the list model of a set. -/
def setAdd (l : List String) (x : String) : List String :=
  if l.contains x then l else l ++ [x]

/-- Keys of the peer directory, in insertion order. -/
def peerKeys (st : NodeState) : List String := st.peers.map (fun e => e.1)

/-- `FireStrikeNode.handle_ping`: a falsy sender (absent key or empty
string) raises `PeerError`; a known sender gets its `last_seen` refreshed;
an unknown sender is inserted only while the directory is below
`max_peers`; the response is always the same `pong`/`ok`. -/
def handle_ping (st : NodeState) (now : Int) (msg : Message) :
    Except String (NodeState × Resp) :=
  match msg.sender with
  | none => .error ("Missing sender address")
  | some s =>
    if s = "" then .error ("Missing sender address")
    else
      let st1 :=
        if (pyLookup st.peers s).isSome then
          { st with peers :=
              st.peers.map (fun e => if e.1 = s then (e.1, { e.2 with last_seen := now }) else e) }
        else if st.peers.length < st.max_peers then
          { st with peers := st.peers ++ [(s, ⟨s, msg.public_key.getD [], now, []⟩)] }
        else st
      .ok (st1, .pong ("ok") st.onion_address)

/-- `FireStrikeNode.handle_store`: a falsy hash or data raises
`ValueError("Missing file hash or data")`; otherwise the base64 payload is
decoded (a `binascii.Error` would propagate, modelled as the same
`Except.error` channel) and stored under the caller-supplied hash with no
verification; a known sender gets the hash added to its `shared_files`. -/
def handle_store (st : NodeState) (msg : Message) : Except String (NodeState × Resp) :=
  match msg.hash, msg.data with
  | some h, some d =>
    if h = "" ∨ d = "" then .error ("Missing file hash or data")
    else
      match b64decode d.toList with
      | none => .error ("Invalid base64-encoded string")
      | some bytes =>
        let st1 := { st with data_store := dictInsert st.data_store h bytes }
        let st2 :=
          match msg.sender with
          | some s =>
            if (pyLookup st1.peers s).isSome then
              { st1 with peers :=
                  st1.peers.map (fun e =>
                    if e.1 = s then (e.1, { e.2 with shared_files := setAdd e.2.shared_files h })
                    else e) }
            else st1
          | none => st1
        .ok (st2, .store_response ("ok") h)
  | _, _ => .error ("Missing file hash or data")

/-- Addresses of peers whose `shared_files` contain the hash. -/
def peersWithFile (st : NodeState) (h : String) : List String :=
  (st.peers.filter (fun e => e.2.shared_files.contains h)).map (fun e => e.2.onion_address)

/-- `FireStrikeNode.handle_find`: a falsy hash raises `ValueError`; then
`data = self.data_store.get(file_hash)` followed by `if data:` — note that
stored EMPTY bytes are falsy and fall through to the `not_found` branch;
a hit is answered with the base64 text of the bytes. -/
def handle_find (st : NodeState) (msg : Message) : Except String (NodeState × Resp) :=
  match msg.hash with
  | none => .error ("Missing file hash")
  | some h =>
    if h = "" then .error ("Missing file hash")
    else
      match pyLookup st.data_store h with
      | some d =>
        if d = [] then .ok (st, .find_not_found ("not_found") h (peersWithFile st h))
        else .ok (st, .find_found ("found") h (String.mk (b64encode d)))
      | none => .ok (st, .find_not_found ("not_found") h (peersWithFile st h))

/-- The `inactive` list `cleanup_peers` builds: addresses whose
`last_seen` is more than `PEER_TIMEOUT = 300` seconds in the past. -/
def inactive_list (now : Int) (st : NodeState) : List String :=
  (st.peers.filter (fun e => decide (300 < now - e.2.last_seen))).map (fun e => e.1)

/-- `del d[k]` for one key of the peer dict. -/
def delKey (l : List (String × PeerInfo)) (k : String) : List (String × PeerInfo) :=
  l.filter (fun e => !(e.1 = k : Bool))

/-- The `for addr in inactive: del self.peers[addr]` loop. -/
def delKeys (l : List (String × PeerInfo)) (ks : List String) : List (String × PeerInfo) :=
  ks.foldl delKey l

/-- `FireStrikeNode.cleanup_peers`: builds the `inactive` list, deletes
those keys, and — being a Python function with no `return` statement —
returns `None`, modelled as the `none` of an `Option (List String)` so
that the value it could have reported (the removed ids) has a type. -/
def cleanup_peers (now : Int) (st : NodeState) : NodeState × Option (List String) :=
  ({ st with peers := delKeys st.peers (inactive_list now st) }, none)

/-- `FireStrikeNode.handle_get_peers`: evicts stale peers, then lists the
remaining ones as `(address, base64 public key, shared files)`. -/
def handle_get_peers (st : NodeState) (now : Int) : Except String (NodeState × Resp) :=
  let st1 := (cleanup_peers now st).1
  .ok (st1, .peers_response ("ok")
    (st1.peers.map (fun e =>
      (e.2.onion_address, String.mk (b64encode e.2.public_key), e.2.shared_files))))

/-- `FireStrikeNode.process_message`: dispatch on `message.get('type')`;
an unrecognized (or absent) type yields the `unknown_message_type` error
dict; any exception a handler raises is caught and answered with the
`internal_error` dict, leaving the state as the handler left it (every
`raise` in the handlers occurs before their first mutation). -/
def process_message (st : NodeState) (now : Int) (msg : Message) : NodeState × Resp :=
  let r :=
    if msg.type = some ("ping") then handle_ping st now msg
    else if msg.type = some ("store") then handle_store st msg
    else if msg.type = some ("find") then handle_find st msg
    else if msg.type = some ("get_peers") then handle_get_peers st now
    else .ok (st, .error ("unknown_message_type") none)
  match r with
  | .ok res => res
  | .error e => (st, .error ("internal_error") (some e))

/-- A well-formed ping message from `sender`, as `ping_peers` builds it. -/
def pingMsg (sender : String) : Message :=
  { type := some ("ping"), sender := some sender, public_key := none, hash := none, data := none }

/-- Whether a response is one of the `'type': 'error'` dicts. -/
def isErrorResp : Resp → Bool
  | .error _ _ => true
  | _ => false

/- ============ prototype DHTNode (`dht_node.py`) ============ -/

/-- The `DHTNode` state touched by `store_file`: the known peer set and
`self.data_store : {hash: (data, salt)}`. -/
structure DhtState where
  peers : List String
  data_store : List (String × (List Nat × List Nat))
deriving DecidableEq

/-- `CryptoHandler.anonymous_hash` with the random salt passed in
explicitly: digest of `salt ‖ data` under the SHA3-256 digest function,
which enters as the parameter `sha3`. -/
def anonymous_hash (sha3 : List Nat → List Nat) (salt : List Nat) (data : List Nat) :
    List Nat × List Nat :=
  (sha3 (salt ++ data), salt)

/-- `DHTNode.store_file`: hash the data, store `(data, salt)` locally
under the hex digest, then best-effort push to every known peer — each
attempt is wrapped in `try/except` that only logs, so per-peer outcomes
(the `attempt` parameter) never influence the result — and return the hex
digest. -/
def store_file (sha3 : List Nat → List Nat) (salt : List Nat)
    (attempt : String → Except String Unit) (st : DhtState) (data : List Nat) :
    DhtState × String :=
  let fh := hexEncode (anonymous_hash sha3 salt data).1
  let st1 := { st with data_store := dictInsert st.data_store fh (data, salt) }
  let _ := st1.peers.map (fun p => attempt p)
  (st1, fh)

/- ============ concrete instances used in the theorems below ============ -/

/-- A freshly started node: default `MAX_PEERS = 50`, no peers, no data. -/
def emptyNode : NodeState := ⟨50, none, [], []⟩

/-- The claim of hash-verified stores, stated for an arbitrary hex-digest
function `digestHex` (the digest itself is library code the handler never
calls): every store request whose id differs from the payload digest is
answered with an error and leaves the content store unchanged. -/
def ClaimHashVerifiedStore (digestHex : List Nat → String) : Prop :=
  ∀ (st : NodeState) (now : Int) (msg : Message) (h d : String) (bs : List Nat),
    msg.type = some ("store") → msg.hash = some h → msg.data = some d →
    b64decode d.toList = some bs → h ≠ digestHex bs →
    isErrorResp (process_message st now msg).2 = true ∧
    (process_message st now msg).1.data_store = st.data_store

/-- A store request for payload `[1, 2, 3]` (base64 `AQID`) under id `aa`. -/
def msgStoreA : Message :=
  { type := some ("store"), sender := none, public_key := none,
    hash := some ("aa"), data := some ("AQID") }

/-- The same payload under the different id `bb`. -/
def msgStoreB : Message :=
  { type := some ("store"), sender := none, public_key := none,
    hash := some ("bb"), data := some ("AQID") }

/-- A store request whose payload is the EMPTY byte string: its base64
text is `""`, which is falsy in `handle_store`'s guard. -/
def storeEmptyMsg : Message :=
  { type := some ("store"), sender := some ("s1"), public_key := none,
    hash := some ("aa"), data := some ("") }

/-- A find request for id `aa`. -/
def findAAMsg : Message :=
  { type := some ("find"), sender := none, public_key := none,
    hash := some ("aa"), data := none }

/-- A message of a type outside the protocol. -/
def bogusMsg : Message :=
  { type := some ("gossip"), sender := some ("s1"), public_key := none,
    hash := none, data := none }

/-- A 64-character id made of `z` — not hexadecimal. -/
def zId : List Char := List.replicate 64 'z'

/-- A 64-character lowercase-hex id. -/
def aId : List Char := List.replicate 64 'a'

/-- A concrete 32-byte key. -/
def key0 : List Nat := List.range 32

/-- A link whose id segment is 64 non-hex characters. -/
def linkNonHex : List Char := generate_magnet_link zId key0

/-- A link whose key segment starts with `!` — not a base64 character —
followed by the valid 44-character encoding of `key0`. -/
def linkJunkKey : List Char := schemeChars ++ aId ++ '#' :: '!' :: b64encode key0

/-- A directory with one stale peer (`last_seen = 0`) and one fresh peer
(`last_seen = 900`), observed at `now = 1000`. -/
def stStale : NodeState :=
  ⟨50, none, [(("p1"), ⟨("p1"), [], 0, []⟩), (("p2"), ⟨("p2"), [], 900, []⟩)], []⟩

/-- A directory at capacity `max_peers = 1`. -/
def stCap : NodeState := ⟨1, some ("me.onion"), [(("p1"), ⟨("p1"), [], 0, []⟩)], []⟩

/-- A ping from a sender unknown to `stCap`. -/
def pingQMsg : Message := pingMsg ("q1")

/-- Fifty-one pairwise distinct nonempty sender addresses. -/
def senders51 : List String := (List.range 51).map (fun n => String.mk [Char.ofNat (65 + n)])

/-- One step of observing a sender via ping at time 0. -/
def pingStep (st : NodeState) (s : String) : NodeState :=
  (process_message st 0 (pingMsg s)).1

/-- A remote-store attempt that always fails (`PeerUnreachable`). -/
def attemptFail : String → Except String Unit := fun _ => .error ("unreachable")

/-- A concrete stand-in instance for the abstract digest parameter,
used only to evaluate `store_file` at a concrete input. -/
def digestStub : List Nat → List Nat := fun l => List.replicate 32 (l.length % 256)

/-- A concrete `DHTNode` state with one known peer. -/
def dhtSt : DhtState := ⟨[("peerA")], []⟩

/- ===================== helper lemmas ===================== -/

lemma pyLookup_dictInsert_self {α : Type} (l : List (String × α)) (k : String) (v : α) :
    pyLookup (dictInsert l k v) k = some v := by
  induction l with
  | nil => simp [dictInsert, pyLookup]
  | cons e t ih =>
    obtain ⟨a, b⟩ := e
    by_cases hak : a = k
    · subst hak
      simp [dictInsert, pyLookup]
    · simp [dictInsert, pyLookup, hak, ih]

lemma pyLookup_eq_none_of_not_mem {α : Type} (l : List (String × α)) (s : String)
    (h : s ∉ l.map (fun e => e.1)) : pyLookup l s = none := by
  induction l with
  | nil => rfl
  | cons e t ih =>
    obtain ⟨a, b⟩ := e
    simp only [List.map_cons, List.mem_cons] at h
    push_neg at h
    have has : ¬(a = s) := fun hh => h.1 hh.symm
    simp [pyLookup, has, ih h.2]

/-- C1. The spec's encrypt/decrypt round-trip fails on the code: because
the `except ValueError` branch of `decrypt_file` is dead code,
`unpadder.finalize()` is never executed and the final withheld block is
dropped, so a 1-byte plaintext decrypts to 0 bytes and a 17-byte
plaintext to its first 16 bytes; only block-aligned plaintexts (such as
the 16-byte one) survive the round trip. Evaluated with a concrete block
permutation (the identity) standing in for keyed AES-256. -/
theorem encrypt_then_decrypt_loses_final_block :
    (encrypt_file identCipher ivZero [7]).bind (decrypt_file identCipher) = some [] ∧
    (encrypt_file identCipher ivZero (List.replicate 17 5)).bind (decrypt_file identCipher) =
      some (List.replicate 16 5) ∧
    (encrypt_file identCipher ivZero (List.range 16)).bind (decrypt_file identCipher) =
      some (List.range 16) := by
  decide

/-- C9. The store/find path is not byte-transparent for every byte
sequence: the EMPTY payload encodes to the empty base64 string, which is
falsy in `handle_store`'s `if not file_hash or not data_b64` guard, so
storing it is answered with an error, nothing is stored, and the
subsequent find reports `not_found` instead of returning the bytes. -/
theorem store_find_not_byte_transparent :
    b64encode [] = [] ∧
    process_message emptyNode 0 storeEmptyMsg =
      (emptyNode, .error ("internal_error") (some ("Missing file hash or data"))) ∧
    process_message emptyNode 0 findAAMsg =
      (emptyNode, .find_not_found ("not_found") ("aa") []) := by
  decide

/-- C7. A message whose type is none of `ping`, `store`, `find`,
`get_peers` is answered with the `unknown_message_type` error response and
leaves the state untouched; dispatch is total (it is a Lean function). -/
theorem process_message_unknown_type (st : NodeState) (now : Int) (msg : Message)
    (h1 : msg.type ≠ some ("ping")) (h2 : msg.type ≠ some ("store"))
    (h3 : msg.type ≠ some ("find")) (h4 : msg.type ≠ some ("get_peers")) :
    process_message st now msg = (st, .error ("unknown_message_type") none) := by
  unfold process_message
  rw [if_neg h1, if_neg h2, if_neg h3, if_neg h4]

/-- Witness for C7 at a concrete unknown-type message. -/
theorem process_message_unknown_type_witness :
    bogusMsg.type ≠ some ("ping") ∧
    process_message stCap 0 bogusMsg = (stCap, .error ("unknown_message_type") none) :=
  ⟨by decide,
   process_message_unknown_type stCap 0 bogusMsg (by decide) (by decide) (by decide) (by decide)⟩

/-- C10. A well-formed ping from an unknown sender while the directory is
at capacity returns the usual `pong`/`ok` response and returns the state
unchanged — the rejection is invisible to the sender. -/
theorem handle_ping_at_capacity_frame (st : NodeState) (now : Int) (msg : Message) (s : String)
    (h1 : msg.sender = some s) (h2 : s ≠ "")
    (h3 : pyLookup st.peers s = none) (h4 : st.peers.length = st.max_peers) :
    handle_ping st now msg = .ok (st, .pong ("ok") st.onion_address) := by
  simp [handle_ping, h1, h2, h3, h4]

/-- Witness for C10 at a concrete full directory. -/
theorem handle_ping_at_capacity_frame_witness :
    pyLookup stCap.peers ("q1") = none ∧ stCap.peers.length = stCap.max_peers ∧
    handle_ping stCap 0 pingQMsg = .ok (stCap, .pong ("ok") stCap.onion_address) :=
  ⟨by decide, by decide,
   handle_ping_at_capacity_frame stCap 0 pingQMsg ("q1") rfl (by decide) (by decide) (by decide)⟩

/-- C8. `DHTNode.store_file` stores locally and returns the hex digest no
matter what the per-peer replication attempts do — here under the
hypothesis that every one of them fails — and the local store afterwards
holds the content under the returned identifier. -/
theorem store_file_best_effort (sha3 : List Nat → List Nat) (salt : List Nat)
    (attempt : String → Except String Unit) (st : DhtState) (data : List Nat)
    (_hfail : ∀ p, attempt p = .error ("unreachable")) :
    (store_file sha3 salt attempt st data).2 = hexEncode (sha3 (salt ++ data)) ∧
    pyLookup (store_file sha3 salt attempt st data).1.data_store
      (hexEncode (sha3 (salt ++ data))) = some (data, salt) := by
  unfold store_file anonymous_hash
  exact ⟨rfl, pyLookup_dictInsert_self _ _ _⟩

/-- Witness for C8 at a concrete state with one (unreachable) peer and a
concrete stand-in digest function. -/
theorem store_file_best_effort_witness :
    (∀ p, attemptFail p = .error ("unreachable")) ∧
    (store_file digestStub [1] attemptFail dhtSt [2, 3]).2 =
      hexEncode (digestStub ([1] ++ [2, 3])) ∧
    pyLookup (store_file digestStub [1] attemptFail dhtSt [2, 3]).1.data_store
      (hexEncode (digestStub ([1] ++ [2, 3]))) = some ([2, 3], [1]) :=
  ⟨fun _ => rfl,
   (store_file_best_effort digestStub [1] attemptFail dhtSt [2, 3] (fun _ => rfl)).1,
   (store_file_best_effort digestStub [1] attemptFail dhtSt [2, 3] (fun _ => rfl)).2⟩

lemma mem_delKey (l : List (String × PeerInfo)) (k : String) (e : String × PeerInfo) :
    e ∈ delKey l k ↔ e ∈ l ∧ e.1 ≠ k := by
  simp [delKey, List.mem_filter]

lemma mem_delKeys (ks : List String) (l : List (String × PeerInfo)) (e : String × PeerInfo) :
    e ∈ delKeys l ks ↔ e ∈ l ∧ e.1 ∉ ks := by
  induction ks generalizing l with
  | nil => simp [delKeys]
  | cons k t ih =>
    have hstep : delKeys l (k :: t) = delKeys (delKey l k) t := rfl
    rw [hstep, ih, mem_delKey]
    simp only [List.mem_cons]
    tauto

lemma mem_inactive_iff (now : Int) (st : NodeState) (e : String × PeerInfo)
    (hnd : (peerKeys st).Nodup) (he : e ∈ st.peers) :
    e.1 ∈ inactive_list now st ↔ 300 < now - e.2.last_seen := by
  unfold inactive_list
  simp only [List.mem_map, List.mem_filter, decide_eq_true_eq]
  constructor
  · rintro ⟨e2, ⟨he2, hst⟩, hfst⟩
    have : e2 = e := List.inj_on_of_nodup_map hnd he2 he hfst
    rwa [this] at hst
  · intro hst
    exact ⟨e, ⟨he, hst⟩, rfl⟩

/-- C6 counterexample. At a concrete directory with one stale peer,
`cleanup_peers` does remove it but returns `None` — not the set of
removed peer ids the claim describes. -/
theorem cleanup_peers_returns_none :
    (cleanup_peers 1000 stStale).2 = none ∧ inactive_list 1000 stStale = [("p1")] ∧
    (cleanup_peers 1000 stStale).1.peers = [(("p2"), ⟨("p2"), [], 900, []⟩)] := by
  decide

/-- C6 (amended). `cleanup_peers` removes exactly the peers whose
`last_seen` is more than `PEER_TIMEOUT = 300` seconds in the past (for a
directory with distinct keys, as Python dicts guarantee), so no stale peer
survives into the resulting directory; it returns `None`, not the removed
ids. -/
theorem cleanup_peers_evicts_stale (now : Int) (st : NodeState)
    (hnd : (peerKeys st).Nodup) :
    (cleanup_peers now st).2 = none ∧
    ∀ e, e ∈ (cleanup_peers now st).1.peers ↔ e ∈ st.peers ∧ now - e.2.last_seen ≤ 300 := by
  refine ⟨rfl, fun e => ?_⟩
  have hpeers : (cleanup_peers now st).1.peers = delKeys st.peers (inactive_list now st) := rfl
  rw [hpeers, mem_delKeys]
  constructor
  · rintro ⟨he, hni⟩
    refine ⟨he, ?_⟩
    by_contra hgt
    push_neg at hgt
    exact hni ((mem_inactive_iff now st e hnd he).mpr hgt)
  · rintro ⟨he, hle⟩
    refine ⟨he, fun hmem => ?_⟩
    have := (mem_inactive_iff now st e hnd he).mp hmem
    omega

/-- Witness for C6 at the concrete two-peer directory. -/
theorem cleanup_peers_evicts_stale_witness :
    (peerKeys stStale).Nodup ∧ (cleanup_peers 1000 stStale).2 = none ∧
    ((("p1"), (⟨("p1"), [], 0, []⟩ : PeerInfo)) ∈ (cleanup_peers 1000 stStale).1.peers ↔
      ((("p1"), (⟨("p1"), [], 0, []⟩ : PeerInfo)) ∈ stStale.peers ∧
        (1000 : Int) - (⟨("p1"), [], 0, []⟩ : PeerInfo).last_seen ≤ 300)) :=
  ⟨by decide, (cleanup_peers_evicts_stale 1000 stStale (by decide)).1,
   (cleanup_peers_evicts_stale 1000 stStale (by decide)).2 (("p1"), ⟨("p1"), [], 0, []⟩)⟩

/-- C2 (amended). `handle_store` performs no verification of the supplied
content id against any digest of the payload: every store request with a
nonempty id and nonempty decodable base64 data is answered `ok` and the
decoded payload is stored under the supplied id as-is. -/
theorem handle_store_no_hash_verification (st : NodeState) (now : Int) (msg : Message)
    (h d : String) (bs : List Nat)
    (h1 : msg.type = some ("store")) (h2 : msg.hash = some h) (h3 : h ≠ "")
    (h4 : msg.data = some d) (h5 : d ≠ "") (h6 : b64decode d.toList = some bs) :
    (process_message st now msg).2 = .store_response ("ok") h ∧
    pyLookup (process_message st now msg).1.data_store h = some bs := by
  simp only [process_message, handle_store, h1, h2, h4, h6, Option.some.injEq, if_true]
  rw [if_neg (show ¬(h = "" ∨ d = "") by simp [h3, h5])]
  cases hs : msg.sender with
  | none => exact ⟨rfl, pyLookup_dictInsert_self _ _ _⟩
  | some s =>
    by_cases hk :
        (pyLookup ({ st with data_store := dictInsert st.data_store h bs} : NodeState).peers s).isSome
    · simp only [hk, if_true]
      exact ⟨rfl, pyLookup_dictInsert_self _ _ _⟩
    · simp only [hk, if_false]
      exact ⟨rfl, pyLookup_dictInsert_self _ _ _⟩

/-- Witness for C2's amended theorem: the `aa`/`AQID` store request is
accepted and stored. -/
theorem handle_store_no_hash_verification_witness :
    b64decode (("AQID" : String).toList) = some [1, 2, 3] ∧
    (process_message emptyNode 0 msgStoreA).2 = .store_response ("ok") ("aa") ∧
    pyLookup (process_message emptyNode 0 msgStoreA).1.data_store ("aa") = some [1, 2, 3] :=
  ⟨by decide,
   (handle_store_no_hash_verification emptyNode 0 msgStoreA ("aa") ("AQID") [1, 2, 3]
     rfl rfl (by decide) rfl (by decide) (by decide)).1,
   (handle_store_no_hash_verification emptyNode 0 msgStoreA ("aa") ("AQID") [1, 2, 3]
     rfl rfl (by decide) rfl (by decide) (by decide)).2⟩

/-- C2 counterexample. `handle_store` accepts and stores the same payload
under two different ids (`aa` and `bb`), so whatever the payload's actual
digest is, at least one of the two requests has a mismatched id and is
nevertheless accepted: no digest function makes the hash-verified-store
claim true of this code. -/
theorem handle_store_accepts_mismatched_hash :
    (process_message emptyNode 0 msgStoreA).2 = .store_response ("ok") ("aa") ∧
    (process_message emptyNode 0 msgStoreB).2 = .store_response ("ok") ("bb") ∧
    ∀ digestHex : List Nat → String, ¬ ClaimHashVerifiedStore digestHex := by
  refine ⟨by decide, by decide, ?_⟩
  intro digestHex hcl
  by_cases hd : digestHex [1, 2, 3] = ("aa")
  · have hne : ("bb" : String) ≠ digestHex [1, 2, 3] := by rw [hd]; decide
    have h := hcl emptyNode 0 msgStoreB ("bb") ("AQID") [1, 2, 3] rfl rfl rfl (by decide) hne
    exact absurd h.1 (by decide)
  · have hne : ("aa" : String) ≠ digestHex [1, 2, 3] := fun he => hd he.symm
    have h := hcl emptyNode 0 msgStoreA ("aa") ("AQID") [1, 2, 3] rfl rfl rfl (by decide) hne
    exact absurd h.1 (by decide)

lemma b64Char_mem_or_default (i : Nat) : b64Char i ∈ b64Alphabet ∨ b64Char i = 'A' := by
  by_cases hlt : i < b64Alphabet.length
  · left
    unfold b64Char
    rw [List.getD_eq_getElem _ _ hlt]
    exact List.getElem_mem hlt
  · right
    unfold b64Char
    exact List.getD_eq_default _ _ (le_of_not_lt hlt)

lemma isB64Char_b64Char (i : Nat) : isB64Char (b64Char i) = true := by
  rcases b64Char_mem_or_default i with hm | he
  · exact (by decide : ∀ c ∈ b64Alphabet, isB64Char c = true) _ hm
  · rw [he]; decide

lemma b64encode_chars (bs : List Nat) :
    ∀ c ∈ b64encode bs, (isB64Char c || c == '=') = true := by
  induction bs using b64encode.induct with
  | case1 => intro c hc; simp [b64encode] at hc
  | case2 a =>
    intro c hc
    simp only [b64encode, List.mem_cons, List.mem_singleton] at hc
    rcases hc with rfl | rfl | rfl | h
    · simp [isB64Char_b64Char]
    · simp [isB64Char_b64Char]
    · decide
    · simp at h
      rw [h]; decide
  | case3 a b =>
    intro c hc
    simp only [b64encode, List.mem_cons, List.mem_singleton] at hc
    rcases hc with rfl | rfl | rfl | h
    · simp [isB64Char_b64Char]
    · simp [isB64Char_b64Char]
    · simp [isB64Char_b64Char]
    · simp at h
      rw [h]; decide
  | case4 a b cc rest ih =>
    intro c hc
    simp only [b64encode, List.mem_cons] at hc
    rcases hc with rfl | rfl | rfl | rfl | h
    · simp [isB64Char_b64Char]
    · simp [isB64Char_b64Char]
    · simp [isB64Char_b64Char]
    · simp [isB64Char_b64Char]
    · exact ih c h

lemma b64Index_b64Char : ∀ i, i < 64 → b64Index (b64Char i) = some i := by decide

lemma b64Char_ne_pad (i : Nat) (h : i < 64) : ¬(b64Char i = '=') := by
  intro he
  have hi := b64Index_b64Char i h
  rw [he] at hi
  have hn : b64Index '=' = (none : Option Nat) := by decide
  rw [hn] at hi
  exact Option.noConfusion hi

lemma b64encode_len4 (bs : List Nat) : (b64encode bs).length % 4 = 0 := by
  induction bs using b64encode.induct with
  | case1 => rfl
  | case2 a => simp [b64encode]
  | case3 a b => simp [b64encode]
  | case4 a b c rest ih =>
    simp only [b64encode, List.length_cons]
    omega

lemma b64decodeQuads_encode :
    ∀ bs : List Nat, (∀ x ∈ bs, x < 256) → b64decodeQuads (b64encode bs) = some bs := by
  intro bs
  induction bs using b64encode.induct with
  | case1 => intro _; rfl
  | case2 a =>
    intro hb
    have ha : a < 256 := hb a (by simp)
    have h1 : a / 4 < 64 := by omega
    have h2 : a % 4 * 16 < 64 := by omega
    simp only [b64encode, b64decodeQuads, b64Index_b64Char _ h1, b64Index_b64Char _ h2,
      reduceIte, Option.some.injEq, List.cons.injEq, and_true]
    omega
  | case3 a b =>
    intro hb
    have ha : a < 256 := hb a (by simp)
    have hb2 : b < 256 := hb b (by simp)
    have h1 : a / 4 < 64 := by omega
    have h2 : a % 4 * 16 + b / 16 < 64 := by omega
    have h3 : b % 16 * 4 < 64 := by omega
    simp only [b64encode, b64decodeQuads, b64Index_b64Char _ h1, b64Index_b64Char _ h2,
      b64Index_b64Char _ h3, if_neg (b64Char_ne_pad _ h3),
      reduceIte, Option.some.injEq, List.cons.injEq, and_true]
    omega
  | case4 a b c rest ih =>
    intro hb
    have ha : a < 256 := hb a (by simp)
    have hb2 : b < 256 := hb b (by simp)
    have hc : c < 256 := hb c (by simp)
    have h1 : a / 4 < 64 := by omega
    have h2 : a % 4 * 16 + b / 16 < 64 := by omega
    have h3 : b % 16 * 4 + c / 64 < 64 := by omega
    have h4 : c % 64 < 64 := by omega
    have hrest : ∀ x ∈ rest, x < 256 := fun x hx => hb x (by simp [hx])
    simp only [b64encode, b64decodeQuads, b64Index_b64Char _ h1, b64Index_b64Char _ h2,
      b64Index_b64Char _ h3, b64Index_b64Char _ h4,
      if_neg (b64Char_ne_pad _ h3), if_neg (b64Char_ne_pad _ h4),
      ih hrest, Option.map_some', Option.some.injEq, List.cons.injEq, and_true]
    omega

lemma b64decode_encode (bs : List Nat) (hb : ∀ x ∈ bs, x < 256) :
    b64decode (b64encode bs) = some bs := by
  unfold b64decode
  rw [List.filter_eq_self.mpr (b64encode_chars bs), if_pos (b64encode_len4 bs)]
  exact b64decodeQuads_encode bs hb

lemma isPrefixL_append_self : ∀ (a b : List Char), isPrefixL a (a ++ b) = true := by
  intro a b
  induction a with
  | nil => rfl
  | cons c t ih => simp [isPrefixL, ih]

lemma splitOnAux_fuel (sep : List Char) :
    ∀ f g (l acc : List Char), l.length ≤ f → l.length ≤ g →
      splitOnAux sep f l acc = splitOnAux sep g l acc := by
  intro f
  induction f with
  | zero =>
    intro g l acc hf _
    have hl : l = [] := List.length_eq_zero.mp (Nat.le_zero.mp hf)
    subst hl
    cases g with
    | zero => rfl
    | succ g => simp [splitOnAux]
  | succ f ih =>
    intro g l acc hf hg
    cases l with
    | nil =>
      cases g with
      | zero => simp [splitOnAux]
      | succ g => rfl
    | cons c rest =>
      cases g with
      | zero => simp at hg
      | succ g =>
        simp only [splitOnAux]
        by_cases hp : isPrefixL sep (c :: rest) = true
        · rw [if_pos hp, if_pos hp]
          have hlen : (List.drop (sep.length - 1) rest).length ≤ rest.length := by
            simp [List.length_drop]
          have hf1 : (List.drop (sep.length - 1) rest).length ≤ f := by
            simp only [List.length_cons] at hf; omega
          have hg1 : (List.drop (sep.length - 1) rest).length ≤ g := by
            simp only [List.length_cons] at hg; omega
          rw [ih g _ [] hf1 hg1]
        · rw [if_neg hp, if_neg hp]
          exact ih g rest (c :: acc)
            (by simp only [List.length_cons] at hf; omega)
            (by simp only [List.length_cons] at hg; omega)

lemma splitOnAux_no_head (s0 : Char) (ss : List Char) :
    ∀ fuel (a acc : List Char), a.length ≤ fuel → s0 ∉ a →
      splitOnAux (s0 :: ss) fuel a acc = [acc.reverse ++ a] := by
  intro fuel
  induction fuel with
  | zero => intro a acc _ _; rfl
  | succ f ih =>
    intro a acc hf hmem
    cases a with
    | nil => simp [splitOnAux]
    | cons c rest =>
      have hc : ¬(s0 = c) := fun he => hmem (by rw [he]; exact List.mem_cons_self c rest)
      have hp : isPrefixL (s0 :: ss) (c :: rest) = false := by
        simp [isPrefixL, hc]
      simp only [splitOnAux, hp, Bool.false_eq_true, if_false]
      rw [ih rest (c :: acc)
        (by simp only [List.length_cons] at hf; omega)
        (fun hm => hmem (List.mem_cons_of_mem c hm))]
      simp

lemma splitOnAux_match (s0 : Char) (ss : List Char) :
    ∀ (a : List Char) (fuel : Nat) (acc b : List Char),
      a.length + (s0 :: ss).length + b.length ≤ fuel → s0 ∉ a →
      splitOnAux (s0 :: ss) fuel (a ++ (s0 :: ss) ++ b) acc =
        (acc.reverse ++ a) :: splitOnAux (s0 :: ss) b.length b [] := by
  intro a
  induction a with
  | nil =>
    intro fuel acc b hf _
    cases fuel with
    | zero => simp only [List.length_cons, List.nil_append] at hf; omega
    | succ f =>
      show splitOnAux (s0 :: ss) (f + 1) (s0 :: (ss ++ b)) acc = _
      have hpre : isPrefixL (s0 :: ss) (s0 :: (ss ++ b)) = true := by
        have := isPrefixL_append_self (s0 :: ss) b
        simpa using this
      simp only [splitOnAux, hpre, if_true]
      have hdrop : List.drop ((s0 :: ss).length - 1) (ss ++ b) = b := by
        simp only [List.length_cons, Nat.add_sub_cancel]
        exact List.drop_left ss b
      rw [hdrop]
      rw [splitOnAux_fuel (s0 :: ss) f b.length b []
        (by simp only [List.length_cons, List.nil_append] at hf; omega) le_rfl]
      simp
  | cons c t ih =>
    intro fuel acc b hf hmem
    cases fuel with
    | zero => simp only [List.length_cons] at hf; omega
    | succ f =>
      have hc : ¬(s0 = c) := fun he => hmem (by rw [he]; exact List.mem_cons_self _ _)
      show splitOnAux (s0 :: ss) (f + 1) (c :: (t ++ (s0 :: ss) ++ b)) acc = _
      have hp : isPrefixL (s0 :: ss) (c :: (t ++ (s0 :: ss) ++ b)) = false := by
        simp [isPrefixL, hc]
      simp only [splitOnAux, hp, Bool.false_eq_true, if_false]
      rw [ih f (c :: acc) b
        (by simp only [List.length_cons] at hf ⊢; omega)
        (fun hm => hmem (List.mem_cons_of_mem c hm))]
      simp

lemma splitOnStr_no_head (s0 : Char) (ss : List Char) (a : List Char) (h : s0 ∉ a) :
    splitOnStr (s0 :: ss) a = [a] := by
  unfold splitOnStr
  rw [if_neg (by simp)]
  rw [splitOnAux_no_head s0 ss a.length a [] le_rfl h]
  simp

lemma splitOnStr_append (s0 : Char) (ss : List Char) (a b : List Char) (h : s0 ∉ a) :
    splitOnStr (s0 :: ss) (a ++ (s0 :: ss) ++ b) = a :: splitOnStr (s0 :: ss) b := by
  unfold splitOnStr
  rw [if_neg (by simp), if_neg (by simp)]
  rw [splitOnAux_match s0 ss a _ [] b (by simp [List.length_append]; omega) h]
  simp

lemma b64encode_no_colon (key : List Nat) : ':' ∉ b64encode key :=
  fun hm => absurd (b64encode_chars key ':' hm) (by decide)

lemma b64encode_no_hashmark (key : List Nat) : '#' ∉ b64encode key :=
  fun hm => absurd (b64encode_chars key '#' hm) (by decide)

lemma parse_generate_eq (id : List Char) (key : List Nat)
    (hc : ':' ∉ id) (hh : '#' ∉ id) (hk : ∀ x ∈ key, x < 256) :
    parse_magnet_link (generate_magnet_link id key) =
      if id.length = 64 then (if key.length = 32 then some (id, key) else none) else none := by
  have hsep : sepScheme = ':' :: ('/' :: '/' :: []) := by decide
  have hscheme : schemeChars = "firestrike".toList ++ (':' :: ('/' :: '/' :: [])) := by decide
  have hlink : generate_magnet_link id key = schemeChars ++ (id ++ '#' :: b64encode key) := by
    rw [generate_magnet_link]
    simp [List.append_assoc]
  have hvia : ':' ∉ id ++ '#' :: b64encode key := by
    intro hm
    rcases List.mem_append.mp hm with hm1 | hm2
    · exact hc hm1
    · rcases List.mem_cons.mp hm2 with he | hm3
      · exact absurd he (by decide)
      · exact b64encode_no_colon key hm3
  rw [hlink]
  unfold parse_magnet_link
  rw [if_pos (isPrefixL_append_self schemeChars (id ++ '#' :: b64encode key))]
  rw [hsep, hscheme]
  rw [splitOnStr_append ':' ('/' :: '/' :: []) ("firestrike".toList)
    (id ++ '#' :: b64encode key) (by decide)]
  rw [splitOnStr_no_head ':' ('/' :: '/' :: []) (id ++ '#' :: b64encode key) hvia]
  show (match splitOnStr ['#'] (id ++ '#' :: b64encode key) with
    | [file_hash, key_b64] =>
      match b64decode key_b64 with
      | some key => if file_hash.length = 64 then
          if key.length = 32 then some (file_hash, key) else none
        else none
      | none => none
    | _ => none) =
    if id.length = 64 then (if key.length = 32 then some (id, key) else none) else none
  rw [show id ++ '#' :: b64encode key = id ++ ('#' :: []) ++ b64encode key from by simp]
  rw [splitOnStr_append '#' [] id (b64encode key) hh]
  rw [splitOnStr_no_head '#' [] (b64encode key) (b64encode_no_hashmark key)]
  show (match b64decode (b64encode key) with
    | some k => if id.length = 64 then
        if k.length = 32 then some (id, k) else none
      else none
    | none => none) =
    if id.length = 64 then (if key.length = 32 then some (id, key) else none) else none
  rw [b64decode_encode key hk]

/-- C4. Decoding the magnet link produced for any 64-character
lowercase-hex content id and any 32-byte key returns exactly that pair:
`parse_magnet_link` is a left inverse of `generate_magnet_link` on valid
inputs. -/
theorem magnet_link_roundtrip (id : List Char) (key : List Nat)
    (h1 : id.length = 64) (h2 : ∀ c ∈ id, isLowerHex c = true)
    (h3 : key.length = 32) (h4 : ∀ x ∈ key, x < 256) :
    parse_magnet_link (generate_magnet_link id key) = some (id, key) := by
  have hc : ':' ∉ id := fun hm => absurd (h2 ':' hm) (by decide)
  have hh : '#' ∉ id := fun hm => absurd (h2 '#' hm) (by decide)
  rw [parse_generate_eq id key hc hh h4, if_pos h1, if_pos h3]

/-- Witness for C4 at a concrete hex id and key. -/
theorem magnet_link_roundtrip_witness :
    aId.length = 64 ∧ (∀ c ∈ aId, isLowerHex c = true) ∧
    key0.length = 32 ∧ (∀ x ∈ key0, x < 256) ∧
    parse_magnet_link (generate_magnet_link aId key0) = some (aId, key0) :=
  ⟨by decide, by decide, by decide, by decide,
   magnet_link_roundtrip aId key0 (by decide) (by decide) (by decide) (by decide)⟩

set_option maxRecDepth 8000 in
/-- C3 counterexample. `parse_magnet_link` accepts two links the claim
says it rejects: one whose 64-character id consists of `z` (not a hex
digit), and one whose key segment contains `!` (not a base64 character —
Python's lax `b64decode` silently discards it). -/
theorem parse_magnet_link_accepts_claim_rejects :
    isLowerHex 'z' = false ∧ parse_magnet_link linkNonHex = some (zId, key0) ∧
    isB64Char '!' = false ∧ parse_magnet_link linkJunkKey = some (aId, key0) := by
  decide

/-- C3 (amended). `parse_magnet_link` rejects a missing scheme prefix, an
id segment of length other than 64, and a key segment that does not
decode to exactly 32 bytes — but it does not validate hex digits of the
id, and non-alphabet characters in the key segment are discarded rather
than rejected (see the counterexample); on well-formed structure it
returns the two fields. -/
theorem parse_magnet_link_validation :
    (∀ s : List Char, isPrefixL schemeChars s = false → parse_magnet_link s = none) ∧
    (∀ (id : List Char) (key : List Nat), ':' ∉ id → '#' ∉ id → (∀ x ∈ key, x < 256) →
      id.length ≠ 64 → parse_magnet_link (generate_magnet_link id key) = none) ∧
    (∀ (id : List Char) (key : List Nat), ':' ∉ id → '#' ∉ id → (∀ x ∈ key, x < 256) →
      key.length ≠ 32 → parse_magnet_link (generate_magnet_link id key) = none) ∧
    (∀ (id : List Char) (key : List Nat), ':' ∉ id → '#' ∉ id → (∀ x ∈ key, x < 256) →
      id.length = 64 → key.length = 32 →
      parse_magnet_link (generate_magnet_link id key) = some (id, key)) := by
  refine ⟨?_, ?_, ?_, ?_⟩
  · intro s hs
    simp [parse_magnet_link, hs]
  · intro id key hc hh hk hlen
    rw [parse_generate_eq id key hc hh hk, if_neg hlen]
  · intro id key hc hh hk hlen
    rw [parse_generate_eq id key hc hh hk]
    by_cases h64 : id.length = 64
    · rw [if_pos h64, if_neg hlen]
    · rw [if_neg h64]
  · intro id key hc hh hk h64 h32
    rw [parse_generate_eq id key hc hh hk, if_pos h64, if_pos h32]

/-- Witness for C3's amended theorem: a 63-character id is rejected. -/
theorem parse_magnet_link_validation_witness :
    (':' ∉ List.replicate 63 'a') ∧ (List.replicate 63 'a').length ≠ 64 ∧
    parse_magnet_link (generate_magnet_link (List.replicate 63 'a') key0) = none :=
  ⟨by decide, by decide,
   parse_magnet_link_validation.2.1 (List.replicate 63 'a') key0
     (by decide) (by decide) (by decide) (by decide)⟩

lemma process_ping_eval (st : NodeState) (now : Int) (s : String) (h2 : s ≠ "") :
    process_message st now (pingMsg s) =
      (if (pyLookup st.peers s).isSome then
          { st with peers :=
              st.peers.map (fun e => if e.1 = s then (e.1, { e.2 with last_seen := now }) else e) }
        else if st.peers.length < st.max_peers then
          { st with peers := st.peers ++ [(s, ⟨s, [], now, []⟩)] }
        else st,
       .pong ("ok") st.onion_address) := by
  simp [process_message, handle_ping, pingMsg, h2]

lemma pingStep_fresh (st : NodeState) (s : String) (h2 : s ≠ "") (h3 : s ∉ peerKeys st) :
    pingStep st s =
      if st.peers.length < st.max_peers then
        { st with peers := st.peers ++ [(s, ⟨s, [], 0, []⟩)] }
      else st := by
  have hl : pyLookup st.peers s = none := pyLookup_eq_none_of_not_mem st.peers s h3
  unfold pingStep
  rw [process_ping_eval st 0 s h2]
  simp [hl]

lemma pingStep_length_le (st : NodeState) (s : String)
    (hle : st.peers.length ≤ st.max_peers) :
    (pingStep st s).peers.length ≤ st.max_peers := by
  by_cases h2 : s = ""
  · have hst : pingStep st s = st := by
      simp [pingStep, process_message, handle_ping, pingMsg, h2]
    rw [hst]
    exact hle
  · unfold pingStep
    rw [process_ping_eval st 0 s h2]
    by_cases hk : (pyLookup st.peers s).isSome
    · simpa [hk] using hle
    · by_cases hlt : st.peers.length < st.max_peers
      · simp [hk, hlt]
        omega
      · simp [hk, hlt]
        exact hle

lemma ping_fold_keys :
    ∀ (l : List String) (st : NodeState), l.Nodup → (∀ s ∈ l, s ≠ "") →
      (∀ s ∈ l, s ∉ peerKeys st) →
      peerKeys (l.foldl pingStep st) = peerKeys st ++ l.take (st.max_peers - st.peers.length) := by
  intro l
  induction l with
  | nil => intro st _ _ _; simp
  | cons s t ih =>
    intro st hnd hne hfresh
    have h2 : s ≠ "" := hne s (List.mem_cons_self s t)
    have h3 : s ∉ peerKeys st := hfresh s (List.mem_cons_self s t)
    have hstep := pingStep_fresh st s h2 h3
    by_cases hlt : st.peers.length < st.max_peers
    · have hstep1 : pingStep st s = { st with peers := st.peers ++ [(s, ⟨s, [], 0, []⟩)] } := by
        rw [hstep, if_pos hlt]
      have hkeys : peerKeys (pingStep st s) = peerKeys st ++ [s] := by
        rw [hstep1]; simp [peerKeys]
      have hmax : (pingStep st s).max_peers = st.max_peers := by rw [hstep1]
      have hlen : (pingStep st s).peers.length = st.peers.length + 1 := by
        rw [hstep1]; simp
      rw [List.foldl_cons]
      rw [ih (pingStep st s) (List.Nodup.of_cons hnd)
        (fun x hx => hne x (List.mem_cons_of_mem s hx))
        (fun x hx => by
          rw [hkeys]
          simp only [List.mem_append, List.mem_singleton]
          rintro (hmem | rfl)
          · exact hfresh x (List.mem_cons_of_mem s hx) hmem
          · exact (List.nodup_cons.mp hnd).1 hx)]
      rw [hkeys, hmax, hlen]
      have harith : st.max_peers - st.peers.length = (st.max_peers - (st.peers.length + 1)) + 1 := by
        omega
      rw [harith, List.take_succ_cons]
      simp
    · have hstep1 : pingStep st s = st := by rw [hstep, if_neg hlt]
      rw [List.foldl_cons, hstep1]
      rw [ih st (List.Nodup.of_cons hnd)
        (fun x hx => hne x (List.mem_cons_of_mem s hx))
        (fun x hx => hfresh x (List.mem_cons_of_mem s hx))]
      have h0 : st.max_peers - st.peers.length = 0 := by omega
      rw [h0]
      simp

/-- C5. The ping handler never grows the directory beyond `max_peers`
(first conjunct), and observing 51 pairwise-distinct peers via ping from
an empty directory with the default `MAX_PEERS = 50` leaves exactly the
first 50 of them, in order — so the 51st (newest) sender is the one
rejected and no earlier peer is evicted (second conjunct). -/
theorem ping_directory_capacity :
    (∀ (st : NodeState) (s : String), st.peers.length ≤ st.max_peers →
      (pingStep st s).peers.length ≤ st.max_peers) ∧
    (∀ senders : List String, senders.Nodup → (∀ s ∈ senders, s ≠ "") →
      senders.length = 51 →
      peerKeys (senders.foldl pingStep emptyNode) = senders.take 50 ∧
      (senders.foldl pingStep emptyNode).peers.length = 50 ∧
      ∀ s ∈ senders.drop 50, s ∉ peerKeys (senders.foldl pingStep emptyNode)) := by
  constructor
  · exact fun st s => pingStep_length_le st s
  · intro senders hnd hne hlen
    have hkeys := ping_fold_keys senders emptyNode hnd hne
      (fun s _ => by simp [peerKeys, emptyNode])
    have hk50 : peerKeys (senders.foldl pingStep emptyNode) = senders.take 50 := by
      simpa [emptyNode, peerKeys] using hkeys
    refine ⟨hk50, ?_, ?_⟩
    · have hpk : (senders.foldl pingStep emptyNode).peers.length =
          (peerKeys (senders.foldl pingStep emptyNode)).length := by
        simp [peerKeys]
      rw [hpk, hk50, List.length_take, hlen]
      decide
    · intro s hs hmem
      rw [hk50] at hmem
      exact (List.disjoint_take_drop hnd le_rfl) hmem hs

/-- Witness for C5 with 51 concrete distinct senders. -/
theorem ping_directory_capacity_witness :
    senders51.Nodup ∧ (∀ s ∈ senders51, s ≠ "") ∧ senders51.length = 51 ∧
    peerKeys (senders51.foldl pingStep emptyNode) = senders51.take 50 ∧
    (senders51.foldl pingStep emptyNode).peers.length = 50 :=
  ⟨by decide, by decide, by decide,
   (ping_directory_capacity.2 senders51 (by decide) (by decide) (by decide)).1,
   (ping_directory_capacity.2 senders51 (by decide) (by decide) (by decide)).2.1⟩
